import Mathlib

/-!
Shallow embedding of `src/python/labe/stats.py` (the `labe` stats pipeline).

Each luigi task's `run` method is a shell pipeline over line-oriented text
files.  We model a line as a `List Char` (the file's bytes are ASCII, so
`LC_ALL=C` byte order coincides with the lexicographic order on the
character lists) and a file as a `List Line`, one element per line.  Each
external utility (`cut`, `tr`, `sort`, `sort -u`, `uniq`, `uniq -c`,
`sort -nr`, `comm -12`) becomes a Lean function on such lists.  The luigi
dependency graph declared by the `requires` methods is modelled as a
function on an inductive type of task instances, and `output` paths as
structured values.
-/

namespace LabeStats

/-- A line of a text file. -/
abbrev Line := List Char

/-- Split a character list on a delimiter character; always returns at
least one (possibly empty) field. -/
def splitOnChar (d : Char) : Line → List Line
  | [] => [[]]
  | c :: cs =>
    match splitOnChar d cs with
    | [] => [[]]
    | f :: rest => if c = d then [] :: f :: rest else (c :: f) :: rest

/-- Model of `cut -d<d> -f<n>` applied to one line: split the line on the
delimiter `d` and return the `n`-th field (1-indexed).  Like the real
`cut` (without `-s`), a line containing no delimiter is passed through
whole, and a missing field yields the empty string. -/
def cutField (d : Char) (n : Nat) (line : Line) : Line :=
  let fields := splitOnChar d line
  if fields.length ≤ 1 then line
  else ((fields.drop (n - 1)).headD [])

/-- Model of `LC_ALL=C tr [:upper:] [:lower:]` applied to one line: map
ASCII upper-case characters to lower case (`Char.toLower` is exactly the
ASCII case fold). -/
def lowerLine (line : Line) : Line :=
  line.map Char.toLower

/-- Model of `LC_ALL=C sort`: sort the lines in byte order (for the ASCII
data handled here, the lexicographic order on `Line`).  The external sort
produces the sorted permutation of its input, which for a linear order is
determined uniquely; we realise it with insertion sort. -/
def sortLines (l : List Line) : List Line :=
  List.insertionSort (· ≤ ·) l

/-- Model of `LC_ALL=C uniq`: collapse adjacent runs of equal lines into a
single line. -/
def uniqAdj {α : Type} [DecidableEq α] : List α → List α
  | [] => []
  | [x] => [x]
  | x :: y :: rest => if x = y then uniqAdj (y :: rest) else x :: uniqAdj (y :: rest)

/-- Model of `LC_ALL=C sort -u`: sort, then keep one copy of each distinct
line (equal sort keys here are literally equal lines). -/
def sortU (l : List Line) : List Line :=
  uniqAdj (sortLines l)

/-- Streaming state of `uniq -c`: `x` is the line of the current run, `n`
the number of copies of it seen so far; emit `(n, x)` when the run ends. -/
def uniqCountAux {α : Type} [DecidableEq α] (x : α) (n : Nat) : List α → List (Nat × α)
  | [] => [(n, x)]
  | y :: ys => if y = x then uniqCountAux x (n + 1) ys else (n, x) :: uniqCountAux y 1 ys

/-- Model of `LC_ALL=C uniq -c`: one `(count, line)` pair per maximal run
of equal adjacent lines. -/
def uniqCount {α : Type} [DecidableEq α] : List α → List (Nat × α)
  | [] => []
  | x :: xs => uniqCountAux x 1 xs

/-- Ordering used to model `LC_ALL=C sort -nr` on `uniq -c` output lines:
compare the numeric count descending; on equal counts GNU sort's
last-resort comparison compares the whole line, reversed by `-r`, which
for equal counts means the remainder of the line (the DOI) descending. -/
def countDescLE (a b : Nat × Line) : Prop :=
  b.1 < a.1 ∨ (a.1 = b.1 ∧ b.2 ≤ a.2)

instance : DecidableRel countDescLE := by
  intro a b
  unfold countDescLE
  infer_instance

instance : IsTotal (Nat × Line) countDescLE := by
  constructor
  intro a b
  rcases lt_trichotomy a.1 b.1 with h | h | h
  · exact Or.inr (Or.inl h)
  · rcases le_total b.2 a.2 with h2 | h2
    · exact Or.inl (Or.inr ⟨h, h2⟩)
    · exact Or.inr (Or.inr ⟨h.symm, h2⟩)
  · exact Or.inl (Or.inl h)

instance : IsTrans (Nat × Line) countDescLE := by
  constructor
  intro a b c hab hbc
  rcases hab with hab | ⟨hab1, hab2⟩
  · rcases hbc with hbc | ⟨hbc1, hbc2⟩
    · exact Or.inl (lt_trans hbc hab)
    · exact Or.inl (hbc1 ▸ hab)
  · rcases hbc with hbc | ⟨hbc1, hbc2⟩
    · exact Or.inl (hab1 ▸ hbc)
    · exact Or.inr ⟨hab1.trans hbc1, hbc2.trans hab2⟩

/-- Model of `LC_ALL=C sort -nr` over counted lines. -/
def sortCountDesc (l : List (Nat × Line)) : List (Nat × Line) :=
  List.insertionSort countDescLE l

/-- One side of the `comm` merge loop: advance the second file past all
lines smaller than the current line `a` of the first file. -/
def skipLt {α : Type} [LinearOrder α] (a : α) : List α → List α
  | [] => []
  | b :: bs => if b < a then skipLt a bs else b :: bs

/-- Model of `LC_ALL=C comm -12 a b` on two sorted inputs: the merge that
keeps exactly the lines present in both files.  (The merge loop — advance
whichever file has the smaller current line, emit on equality — is
grouped here by lines of the first file so that the recursion is
structural.) -/
def comm12 {α : Type} [LinearOrder α] : List α → List α → List α
  | [], _ => []
  | a :: as, l2 =>
    match skipLt a l2 with
    | [] => []
    | b :: bs => if a < b then comm12 as (b :: bs) else a :: comm12 as bs

/-!  The task pipelines, one per `run` method in `stats.py`. -/

/-- `OpenCitationsSourceDOI.run`:
`zstdcat {input} | cut -d, -f 2 | tr [:upper:] [:lower:] | sort | zstd`.
Input: the raw comma-separated citation-edge lines. -/
def OpenCitationsSourceDOI.run (rows : List Line) : List Line :=
  sortLines (rows.map (fun r => lowerLine (cutField ',' 2 r)))

/-- `OpenCitationsTargetDOI.run`:
`zstdcat {input} | cut -d, -f 3 | tr [:upper:] [:lower:] | sort | zstd`. -/
def OpenCitationsTargetDOI.run (rows : List Line) : List Line :=
  sortLines (rows.map (fun r => lowerLine (cutField ',' 3 r)))

/-- `OpenCitationsCitedCount.run`:
`zstdcat {input} | uniq -c | sort -nr | sed 's@^[ ]*@@;s@ @\t@' | zstd`;
a resulting tab-separated line `<count>\t<doi>` is modelled as the pair
`(count, doi)` (the `sed` step only strips the `uniq -c` padding and
rewrites the separator). -/
def OpenCitationsCitedCount.run (l : List Line) : List (Nat × Line) :=
  sortCountDesc (uniqCount l)

/-- `OpenCitationsUniqueDOI.run`:
`sort -u <(zstdcat {s} | uniq) <(zstdcat {t} | uniq) | zstd`; `sort`
given two file operands sorts their concatenation. -/
def OpenCitationsUniqueDOI.run (s t : List Line) : List Line :=
  sortU (uniqAdj s ++ uniqAdj t)

/-- `IndexMappedDOI.run`:
`zstdcat {input} | cut -f 2 | tr [:upper:] [:lower:] | sort -u | zstd`;
`cut` without `-d` splits on TAB. -/
def IndexMappedDOI.run (rows : List Line) : List Line :=
  sortU (rows.map (fun r => lowerLine (cutField '\t' 2 r)))

/-- `StatsCommonDOI.run`:
`comm -12 <(zstdcat {index}) <(zstdcat {oci}) | zstd`. -/
def StatsCommonDOI.run (index oci : List Line) : List Line :=
  comm12 index oci

/-!  The luigi task graph declared in `stats.py`. -/

/-- The date parameter of the date-parameterised tasks
(`luigi.DateParameter`), modelled as an abstract day number. -/
abbrev Date := Nat

/-- A task instance: one of the module's task classes together with its
parameter values.  `openCitationsSingleFile` and `idMappingTable` are the
two upstream producers imported from `labe.tasks`. -/
inductive TaskInst : Type
  | openCitationsSingleFile
  | idMappingTable (date : Date)
  | openCitationsSourceDOI
  | openCitationsTargetDOI
  | openCitationsCitedCount
  | openCitationsInboundStats
  | openCitationsUniqueDOI
  | indexMappedDOI (date : Date)
  | statsCommonDOI (date : Date)
deriving DecidableEq

/-- The value returned by a `requires()` method: a single task, or a
dict of named tasks (the module never returns a list). -/
inductive Requires : Type
  | single (t : TaskInst)
  | named (m : List (String × TaskInst))
deriving DecidableEq

/-- The `requires()` methods of `stats.py`, literally transcribed; `none`
for the two tasks imported from `labe.tasks`, whose `requires` is not
defined in this module. -/
def requires : TaskInst → Option Requires
  | .openCitationsSingleFile => none
  | .idMappingTable _ => none
  | .openCitationsSourceDOI => some (.single .openCitationsSingleFile)
  | .openCitationsTargetDOI => some (.single .openCitationsSingleFile)
  | .openCitationsCitedCount => some (.single .openCitationsTargetDOI)
  | .openCitationsInboundStats => some (.single .openCitationsCitedCount)
  | .openCitationsUniqueDOI =>
      some (.named [("s", .openCitationsSourceDOI), ("t", .openCitationsTargetDOI)])
  | .indexMappedDOI d => some (.single (.idMappingTable d))
  | .statsCommonDOI d =>
      some (.named [("index", .indexMappedDOI d), ("oci", .openCitationsUniqueDOI)])

/-- Modelled from the spec: the Fingerprint Function of `labe.tasks.Task`
(`open_citations_url_hash` and the date-parameter naming of `Task.path`,
neither of which is under `src/`).  Per the spec it derives a
deterministic, collision-resistant identifier from the task's semantically
relevant input — the configured OpenCitations URL for the citation tasks,
the date parameter for the date-parameterised tasks; collision resistance
is modelled by keeping the logical input as a constructor argument. -/
inductive Fingerprint : Type
  | urlHash
  | dateParam (d : Date)
deriving DecidableEq

/-- Modelled from the spec: an Output Target path as built by
`labe.tasks.Task.path` (not under `src/`) — one artifact directory per
task family, filename `<fingerprint>.<ext>`. -/
structure OutputPath where
  family : String
  fingerprint : Fingerprint
  ext : String
deriving DecidableEq

/-- The `output()` methods of `stats.py`: family and extension are
transcribed from the source (`"{}.tsv.zst".format(fingerprint)` etc.); the
fingerprint argument follows the spec-modelled Fingerprint Function.
`none` for the two tasks not defined in this module. -/
def output : TaskInst → Option OutputPath
  | .openCitationsSingleFile => none
  | .idMappingTable _ => none
  | .openCitationsSourceDOI => some ⟨"OpenCitationsSourceDOI", .urlHash, "tsv.zst"⟩
  | .openCitationsTargetDOI => some ⟨"OpenCitationsTargetDOI", .urlHash, "tsv.zst"⟩
  | .openCitationsCitedCount => some ⟨"OpenCitationsCitedCount", .urlHash, "tsv.zst"⟩
  | .openCitationsInboundStats => some ⟨"OpenCitationsInboundStats", .urlHash, "json"⟩
  | .openCitationsUniqueDOI => some ⟨"OpenCitationsUniqueDOI", .urlHash, "json.zst"⟩
  | .indexMappedDOI d => some ⟨"IndexMappedDOI", .dateParam d, "tsv.zst"⟩
  | .statsCommonDOI d => some ⟨"StatsCommonDOI", .dateParam d, "tsv.zst"⟩

/-!  Artifact formats (for the extension-vs-content convention). -/

/-- Logical format of an artifact's payload: a line-oriented
(tab-separated) text stream, or a JSON document. -/
inductive DataFormat : Type
  | tsvLines
  | json
deriving DecidableEq

/-- What an extension string of this module encodes: logical format plus
whether the payload is zstd-compressed. -/
def extEncodes : String → Option (DataFormat × Bool) :=
  fun e =>
    if e = "tsv.zst" then some (.tsvLines, true)
    else if e = "json" then some (.json, false)
    else if e = "json.zst" then some (.json, true)
    else none

/-- The payload each task's `run` procedure actually writes, read off the
source: every shell-pipeline task ends in `zstd -c` over line-oriented
text (`(.tsvLines, true)`); `OpenCitationsInboundStats` writes
`df.describe().to_json` to its target uncompressed (`(.json, false)`).
`none` for the two tasks not defined in this module. -/
def runWrites : TaskInst → Option (DataFormat × Bool)
  | .openCitationsSingleFile => none
  | .idMappingTable _ => none
  | .openCitationsSourceDOI => some (.tsvLines, true)
  | .openCitationsTargetDOI => some (.tsvLines, true)
  | .openCitationsCitedCount => some (.tsvLines, true)
  | .openCitationsInboundStats => some (.json, false)
  | .openCitationsUniqueDOI => some (.tsvLines, true)
  | .indexMappedDOI _ => some (.tsvLines, true)
  | .statsCommonDOI _ => some (.tsvLines, true)

/-!  Error propagation of the `run` methods. -/

/-- Modelled from the spec: `labe.base.shellout` (not under `src/`) — the
External Step Runner.  It runs the substituted command and returns the
private scratch path on zero exit status; a non-zero exit status is
reported as a step failure (an exception carrying the status), and the
scratch file is not promoted. -/
def shellout (exitCode : Nat) (scratch : String) : Except Nat String :=
  if exitCode = 0 then .ok scratch else .error exitCode

/-- Outcome of one `run` invocation: the exception it raised (if any) and
whether the task's Output Target path came into existence. -/
structure RunOutcome where
  raised : Option Nat
  outputCreated : Bool
deriving DecidableEq

/-- The control flow shared by every `run` method of `stats.py`: first the
`shellout` call, and only after it returns the promotion of its result to
the Output Target (`luigi.LocalTarget(output).move(self.output().path)`;
for `OpenCitationsInboundStats` the later `self.output().open("wb")`
write).  If `shellout` raises, the method aborts before any publish. -/
def runShellThenPublish (exitCode : Nat) (scratch : String) : RunOutcome :=
  match shellout exitCode scratch with
  | .error e => ⟨some e, false⟩
  | .ok _ => ⟨none, true⟩

/-- Per-task `run` outcome model: every task class of this module has the
`runShellThenPublish` shape; `none` for the two external producers. -/
def runProc : TaskInst → (exitCode : Nat) → (scratch : String) → Option RunOutcome
  | .openCitationsSingleFile, _, _ => none
  | .idMappingTable _, _, _ => none
  | .openCitationsSourceDOI, e, s => some (runShellThenPublish e s)
  | .openCitationsTargetDOI, e, s => some (runShellThenPublish e s)
  | .openCitationsCitedCount, e, s => some (runShellThenPublish e s)
  | .openCitationsInboundStats, e, s => some (runShellThenPublish e s)
  | .openCitationsUniqueDOI, e, s => some (runShellThenPublish e s)
  | .indexMappedDOI _, e, s => some (runShellThenPublish e s)
  | .statsCommonDOI _, e, s => some (runShellThenPublish e s)

/-!  Python name resolution inside `OpenCitationsInboundStats.run`. -/

/-- Names bound at module level by the import statements of `stats.py`:
`import datetime`, `import luigi`, `import pandas as pd`,
`from labe.base import shellout`,
`from labe.tasks import IdMappingTable, OpenCitationsSingleFile, Task`. -/
def moduleImportedNames : List String :=
  ["datetime", "luigi", "pd", "shellout", "IdMappingTable",
   "OpenCitationsSingleFile", "Task"]

/-- Names bound at module level by the module's own statements: the
`__all__` assignment and the seven class definitions. -/
def moduleDefinedNames : List String :=
  ["__all__", "OpenCitationsSourceDOI", "OpenCitationsTargetDOI",
   "OpenCitationsCitedCount", "OpenCitationsInboundStats",
   "OpenCitationsUniqueDOI", "IndexMappedDOI", "StatsCommonDOI"]

/-- The module-global scope of `stats.py` (`os` would have to appear here
to be resolvable; it is not a Python builtin). -/
def moduleScope : List String := moduleImportedNames ++ moduleDefinedNames

/-- A Python runtime value, as far as `OpenCitationsInboundStats.run`
manipulates them. -/
inductive PyVal : Type
  | scratchPath (p : String)
  | dataFrame
  | pyList
  | fileHandle
  | moduleRef (n : String)
deriving DecidableEq

/-- A Python runtime error. -/
inductive PyError : Type
  | nameError (missing : String)
deriving DecidableEq

/-- Look a name up in the local environment (most recent binding first). -/
def lookupLocal (locals : List (String × PyVal)) (n : String) : Option PyVal :=
  (locals.find? (fun p => p.1 == n)).map Prod.snd

/-- Python name resolution for a name read inside a method body: locals
first, then the module-global scope; an unbound name raises `NameError`. -/
def resolveName (locals : List (String × PyVal)) (n : String) : Except PyError PyVal :=
  match lookupLocal locals n with
  | some v => .ok v
  | none => if n ∈ moduleScope then .ok (.moduleRef n) else .error (.nameError n)

/-- The local environment of `OpenCitationsInboundStats.run` when control
reaches its final statement `os.remove(output)` (most recent binding
first): `output` was bound to the `shellout` scratch path, then `df` and
`percentiles` were bound, and `with self.output().open("wb") as output:`
rebound `output` to the opened target file handle. -/
def OpenCitationsInboundStats.localsAtFinalStmt (scratch : String) : List (String × PyVal) :=
  [("output", .fileHandle), ("percentiles", .pyList), ("df", .dataFrame),
   ("output", .scratchPath scratch)]

/-- The final statement `os.remove(output)` of
`OpenCitationsInboundStats.run`: it first has to resolve the name `os`. -/
def OpenCitationsInboundStats.finalStmt (scratch : String) : Except PyError Unit :=
  match resolveName (OpenCitationsInboundStats.localsAtFinalStmt scratch) "os" with
  | .error e => .error e
  | .ok _ => .ok ()

/-!  Lemmas about `uniqAdj` (`uniq` / the deduplication half of `sort -u`). -/

theorem mem_uniqAdj {α : Type} [DecidableEq α] (a : α) :
    ∀ l : List α, (a ∈ uniqAdj l ↔ a ∈ l)
  | [] => Iff.rfl
  | [_] => Iff.rfl
  | x :: y :: rest => by
    by_cases h : x = y
    · simp only [uniqAdj, if_pos h]
      rw [mem_uniqAdj a (y :: rest)]
      subst h
      simp [List.mem_cons]
    · simp only [uniqAdj, if_neg h, List.mem_cons]
      rw [mem_uniqAdj a (y :: rest)]
      simp [List.mem_cons]

theorem sorted_lt_uniqAdj {α : Type} [DecidableEq α] [LinearOrder α] :
    ∀ l : List α, l.Sorted (· ≤ ·) → (uniqAdj l).Sorted (· < ·)
  | [] => fun _ => List.sorted_nil
  | [x] => fun _ => List.sorted_singleton x
  | x :: y :: rest => fun h => by
    have htail : (y :: rest).Sorted (· ≤ ·) := h.of_cons
    by_cases hxy : x = y
    · simp only [uniqAdj, if_pos hxy]
      exact sorted_lt_uniqAdj (y :: rest) htail
    · simp only [uniqAdj, if_neg hxy]
      rw [List.sorted_cons]
      refine ⟨?_, sorted_lt_uniqAdj (y :: rest) htail⟩
      intro z hz
      rw [mem_uniqAdj z (y :: rest)] at hz
      have hxley : x ≤ y := List.rel_of_sorted_cons h y (List.mem_cons_self y rest)
      have hxlty : x < y := lt_of_le_of_ne hxley hxy
      rcases List.mem_cons.mp hz with hzy | hzr
      · exact hzy ▸ hxlty
      · exact lt_of_lt_of_le hxlty (List.rel_of_sorted_cons htail z hzr)

/-!  Lemmas about `sortLines` / `sortU`. -/

theorem sorted_le_sortLines (l : List Line) : (sortLines l).Sorted (· ≤ ·) :=
  List.sorted_insertionSort _ l

theorem perm_sortLines (l : List Line) : (sortLines l).Perm l :=
  List.perm_insertionSort _ l

theorem mem_sortLines (a : Line) (l : List Line) : a ∈ sortLines l ↔ a ∈ l :=
  (perm_sortLines l).mem_iff

theorem sorted_lt_sortU (l : List Line) : (sortU l).Sorted (· < ·) :=
  sorted_lt_uniqAdj _ (sorted_le_sortLines l)

theorem mem_sortU (a : Line) (l : List Line) : a ∈ sortU l ↔ a ∈ l :=
  (mem_uniqAdj a (sortLines l)).trans (mem_sortLines a l)

theorem nodup_sortU (l : List Line) : (sortU l).Nodup :=
  (sorted_lt_sortU l).nodup

/-!  Lemmas about the `comm -12` merge. -/

theorem skipLt_sublist {α : Type} [LinearOrder α] (a : α) :
    ∀ l : List α, (skipLt a l).Sublist l := by
  intro l
  induction l with
  | nil => exact List.Sublist.refl _
  | cons b bs ih =>
    by_cases h : b < a
    · simp only [skipLt, if_pos h]
      exact ih.cons b
    · simp only [skipLt, if_neg h]
      exact List.Sublist.refl _

theorem mem_skipLt {α : Type} [LinearOrder α] (x a : α) :
    ∀ l : List α, l.Sorted (· ≤ ·) → (x ∈ skipLt a l ↔ x ∈ l ∧ a ≤ x) := by
  intro l
  induction l with
  | nil => simp [skipLt]
  | cons b bs ih =>
    intro h
    by_cases hb : b < a
    · rw [skipLt, if_pos hb, ih h.of_cons]
      simp only [List.mem_cons]
      constructor
      · rintro ⟨hx, hax⟩
        exact ⟨Or.inr hx, hax⟩
      · rintro ⟨hx | hx, hax⟩
        · exact absurd (lt_of_lt_of_le hb (hx ▸ hax)) (lt_irrefl b)
        · exact ⟨hx, hax⟩
    · rw [skipLt, if_neg hb]
      constructor
      · intro hx
        refine ⟨hx, ?_⟩
        have hab : a ≤ b := le_of_not_lt hb
        rcases List.mem_cons.mp hx with hxb | hxbs
        · exact hxb ▸ hab
        · exact hab.trans (List.rel_of_sorted_cons h x hxbs)
      · exact fun hx => hx.1

theorem comm12_eq_filter {α : Type} [LinearOrder α] :
    ∀ (l1 l2 : List α), l1.Sorted (· < ·) → l2.Sorted (· < ·) →
      comm12 l1 l2 = l1.filter (fun x => decide (x ∈ l2))
  | [], _, _, _ => rfl
  | a :: as, l2, h1, h2 => by
    have h1tail : as.Sorted (· < ·) := h1.of_cons
    have ha : ∀ x ∈ as, a < x := fun x hx => List.rel_of_sorted_cons h1 x hx
    have hmem : ∀ x, x ∈ skipLt a l2 ↔ x ∈ l2 ∧ a ≤ x :=
      fun x => mem_skipLt x a l2 (h2.imp (fun h => le_of_lt h))
    have hsk : (skipLt a l2).Sorted (· < ·) := h2.sublist (skipLt_sublist a l2)
    rw [comm12]
    cases hcase : skipLt a l2 with
    | nil =>
      have hnone : ∀ x ∈ a :: as, ¬ x ∈ l2 := by
        intro x hx hxl2
        have hax : a ≤ x := by
          rcases List.mem_cons.mp hx with hxa | hxas
          · exact hxa ▸ le_refl a
          · exact le_of_lt (ha x hxas)
        have : x ∈ skipLt a l2 := (hmem x).mpr ⟨hxl2, hax⟩
        rw [hcase] at this
        exact absurd this (List.not_mem_nil x)
      have : (a :: as).filter (fun x => decide (x ∈ l2)) = [] := by
        rw [List.filter_eq_nil_iff]
        intro x hx
        simpa using hnone x hx
      rw [this]
    | cons b bs =>
      rw [hcase] at hsk
      have hbl2 : b ∈ l2 ∧ a ≤ b := (hmem b).mp (hcase ▸ List.mem_cons_self b bs)
      show (if a < b then comm12 as (b :: bs) else a :: comm12 as bs) =
        List.filter (fun x => decide (x ∈ l2)) (a :: as)
      by_cases hab : a < b
      · rw [if_pos hab]
        have hanotl2 : ¬ a ∈ l2 := by
          intro hal2
          have : a ∈ skipLt a l2 := (hmem a).mpr ⟨hal2, le_refl a⟩
          rw [hcase] at this
          rcases List.mem_cons.mp this with h' | h'
          · exact absurd (h' ▸ hab) (lt_irrefl a)
          · exact absurd hab (not_lt_of_lt (List.rel_of_sorted_cons hsk a h'))
        have hcongr : ∀ x ∈ as, x ∈ l2 ↔ x ∈ b :: bs := by
          intro x hx
          constructor
          · intro hxl2
            have : x ∈ skipLt a l2 := (hmem x).mpr ⟨hxl2, le_of_lt (ha x hx)⟩
            rwa [hcase] at this
          · intro hxbbs
            exact ((hmem x).mp (hcase ▸ hxbbs)).1
        rw [comm12_eq_filter as (b :: bs) h1tail hsk]
        rw [List.filter_cons_of_neg (by simpa using hanotl2)]
        refine List.filter_congr ?_
        intro x hx
        simp only [decide_eq_decide]
        exact (hcongr x hx).symm
      · rw [if_neg hab]
        have hba : a = b := le_antisymm hbl2.2 (le_of_not_lt hab)
        have hal2 : a ∈ l2 := hba ▸ hbl2.1
        have hcongr : ∀ x ∈ as, x ∈ l2 ↔ x ∈ bs := by
          intro x hx
          constructor
          · intro hxl2
            have hx2 : x ∈ skipLt a l2 := (hmem x).mpr ⟨hxl2, le_of_lt (ha x hx)⟩
            rw [hcase] at hx2
            rcases List.mem_cons.mp hx2 with h' | h'
            · exact absurd (ha x hx) (by rw [h', ← hba]; exact lt_irrefl a)
            · exact h'
          · intro hxbs
            exact ((hmem x).mp (hcase ▸ List.mem_cons_of_mem b hxbs)).1
        have hbs : bs.Sorted (· < ·) := hsk.of_cons
        rw [comm12_eq_filter as bs h1tail hbs]
        rw [List.filter_cons_of_pos (by simpa using hal2)]
        refine congrArg (a :: ·) (List.filter_congr ?_)
        intro x hx
        simp only [decide_eq_decide]
        exact (hcongr x hx).symm

/-!  Lemmas about `uniqCount` (`uniq -c`). -/

theorem map_snd_uniqCountAux {α : Type} [DecidableEq α] :
    ∀ (l : List α) (x : α) (n : Nat),
      (uniqCountAux x n l).map Prod.snd = uniqAdj (x :: l)
  | [], _, _ => rfl
  | y :: ys, x, n => by
    by_cases h : y = x
    · rw [uniqCountAux, if_pos h, map_snd_uniqCountAux ys x (n + 1)]
      subst h
      simp [uniqAdj]
    · rw [uniqCountAux, if_neg h, List.map_cons, map_snd_uniqCountAux ys y 1]
      show x :: uniqAdj (y :: ys) = uniqAdj (x :: y :: ys)
      rw [uniqAdj, if_neg (fun hxy => h hxy.symm)]

theorem map_snd_uniqCount {α : Type} [DecidableEq α] :
    ∀ l : List α, (uniqCount l).map Prod.snd = uniqAdj l
  | [] => rfl
  | x :: xs => map_snd_uniqCountAux xs x 1

theorem count_uniqCountAux {α : Type} [DecidableEq α] [BEq α] [LawfulBEq α] [LinearOrder α] :
    ∀ (l : List α) (x : α) (n : Nat), (x :: l).Sorted (· ≤ ·) →
      ∀ p ∈ uniqCountAux x n l,
        p.1 = if p.2 = x then n + l.count x else l.count p.2
  | [], x, n, _, p, hp => by
    rcases List.mem_singleton.mp hp with rfl
    simp
  | y :: ys, x, n, h, p, hp => by
    by_cases hyx : y = x
    · subst hyx
      rw [uniqCountAux, if_pos rfl] at hp
      have htail : (y :: ys).Sorted (· ≤ ·) := h.of_cons
      have := count_uniqCountAux ys y (n + 1) htail p hp
      by_cases hpy : p.2 = y
      · rw [if_pos hpy] at this ⊢
        rw [List.count_cons_self]
        omega
      · rw [if_neg hpy] at this ⊢
        rw [List.count_cons_of_ne hpy]
        exact this
    · have hxy : x < y :=
        lt_of_le_of_ne (List.rel_of_sorted_cons h y (List.mem_cons_self y ys))
          (fun hh => hyx hh.symm)
      have hgt : ∀ z ∈ y :: ys, x < z := by
        intro z hz
        rcases List.mem_cons.mp hz with rfl | hz
        · exact hxy
        · exact lt_of_lt_of_le hxy (List.rel_of_sorted_cons h.of_cons z hz)
      rw [uniqCountAux, if_neg hyx] at hp
      rcases List.mem_cons.mp hp with rfl | hp
      · have hx0 : (y :: ys).count x = 0 :=
          List.count_eq_zero.mpr (fun hx => absurd (hgt x hx) (lt_irrefl x))
        simp [hx0]
      · have hp2 : p.2 ∈ y :: ys := by
          have : p.2 ∈ (uniqCountAux y 1 ys).map Prod.snd := List.mem_map_of_mem _ hp
          rw [map_snd_uniqCountAux ys y 1] at this
          exact (mem_uniqAdj p.2 (y :: ys)).mp this
        have hp2x : p.2 ≠ x := fun hh => absurd (hgt p.2 hp2) (hh ▸ lt_irrefl x)
        have := count_uniqCountAux ys y 1 h.of_cons p hp
        rw [if_neg hp2x]
        by_cases hpy : p.2 = y
        · rw [if_pos hpy] at this

          rw [hpy, List.count_cons_self]
          omega
        · rw [if_neg hpy] at this
          rw [List.count_cons_of_ne hpy]
          exact this

theorem count_uniqCount {α : Type} [DecidableEq α] [BEq α] [LawfulBEq α] [LinearOrder α] :
    ∀ l : List α, l.Sorted (· ≤ ·) → ∀ p ∈ uniqCount l, p.1 = l.count p.2
  | [], _, p, hp => absurd hp (List.not_mem_nil p)
  | x :: xs, h, p, hp => by
    have := count_uniqCountAux xs x 1 h p hp
    by_cases hpx : p.2 = x
    · rw [if_pos hpx] at this
      rw [hpx, List.count_cons_self]
      omega
    · rw [if_neg hpx] at this
      rw [List.count_cons_of_ne hpx]
      exact this

/-!  Lemmas about `sortCountDesc` (`sort -nr`). -/

theorem perm_sortCountDesc (l : List (Nat × Line)) : (sortCountDesc l).Perm l :=
  List.perm_insertionSort _ l

theorem sorted_sortCountDesc (l : List (Nat × Line)) :
    (sortCountDesc l).Sorted countDescLE :=
  List.sorted_insertionSort _ l

theorem pairwise_count_desc (l : List (Nat × Line)) :
    (sortCountDesc l).Pairwise (fun a b => b.1 ≤ a.1) := by
  refine (sorted_sortCountDesc l).imp ?_
  intro a b hab
  rcases hab with hab | ⟨hab, _⟩
  · exact le_of_lt hab
  · exact le_of_eq hab.symm

theorem count_eq_of_perm {α : Type} [BEq α] {l1 l2 : List α}
    (h : l1.Perm l2) (x : α) : l1.count x = l2.count x :=
  h.countP_eq _

/-!  The claims. -/

/-- C1: for every pair of input files that are sorted and deduplicated
lists of lines (strictly sorted), the common-DOI overlap step
(`StatsCommonDOI.run`, `comm -12`) produces exactly the set intersection
of the two inputs as a sorted list; in particular, intersecting the
index-mapped list `{b/1, d/9}` (from mapping rows with second column
`B/1`, `D/9`) with the unique list `{a/1, b/1, c/1}` yields exactly
`{b/1}`. -/
theorem claim_C1_common_doi_intersection (l1 l2 : List Line)
    (h1 : l1.Sorted (· < ·)) (h2 : l2.Sorted (· < ·)) :
    (StatsCommonDOI.run l1 l2).Sorted (· < ·) ∧
    (∀ x : Line, x ∈ StatsCommonDOI.run l1 l2 ↔ x ∈ l1 ∧ x ∈ l2) ∧
    StatsCommonDOI.run (IndexMappedDOI.run ["1\tB/1".data, "2\tD/9".data])
      ["a/1".data, "b/1".data, "c/1".data] = ["b/1".data] := by
  have heq := comm12_eq_filter l1 l2 h1 h2
  refine ⟨?_, fun x => ?_, by decide⟩
  · rw [StatsCommonDOI.run, heq]
    exact List.Pairwise.filter _ h1
  · rw [StatsCommonDOI.run, heq]
    simp [List.mem_filter]

theorem claim_C1_witness :
    (StatsCommonDOI.run ["b/1".data, "d/9".data]
      ["a/1".data, "b/1".data, "c/1".data]).Sorted (· < ·) :=
  (claim_C1_common_doi_intersection ["b/1".data, "d/9".data]
    ["a/1".data, "b/1".data, "c/1".data] (by decide) (by decide)).1

/-- C2: the sortedness-and-deduplication precondition of the intersection
merge is preserved structurally by the dependency edges: both declared
inputs of `StatsCommonDOI` (the outputs of `IndexMappedDOI` and
`OpenCitationsUniqueDOI`) are, for every input dataset, sorted and
duplicate-free by construction (each producer ends in `sort -u`). -/
theorem claim_C2_merge_precondition_structural :
    (∀ d : Date, requires (.statsCommonDOI d) =
      some (.named [("index", .indexMappedDOI d), ("oci", .openCitationsUniqueDOI)])) ∧
    (∀ rows : List Line,
      (IndexMappedDOI.run rows).Sorted (· < ·) ∧ (IndexMappedDOI.run rows).Nodup) ∧
    (∀ s t : List Line,
      (OpenCitationsUniqueDOI.run s t).Sorted (· < ·) ∧
        (OpenCitationsUniqueDOI.run s t).Nodup) :=
  ⟨fun _ => rfl,
   fun _ => ⟨sorted_lt_sortU _, nodup_sortU _⟩,
   fun _ _ => ⟨sorted_lt_sortU _, nodup_sortU _⟩⟩

/-- C3: `OpenCitationsSourceDOI.run` produces the second comma-column
lowercased and sorted, `OpenCitationsTargetDOI.run` the third,
`OpenCitationsUniqueDOI.run` the sorted duplicate-free union of the two
lists; on the example edge rows `1,A/1,B/1` and `2,B/1,C/1` the source
list is `{a/1, b/1}`, the target list `{b/1, c/1}`, and the unique-DOI
list `{a/1, b/1, c/1}`. -/
theorem claim_C3_source_target_unique_lists :
    (∀ rows : List Line, (OpenCitationsSourceDOI.run rows).Sorted (· ≤ ·) ∧
      (OpenCitationsSourceDOI.run rows).Perm
        (rows.map (fun r => lowerLine (cutField ',' 2 r)))) ∧
    (∀ rows : List Line, (OpenCitationsTargetDOI.run rows).Sorted (· ≤ ·) ∧
      (OpenCitationsTargetDOI.run rows).Perm
        (rows.map (fun r => lowerLine (cutField ',' 3 r)))) ∧
    (∀ s t : List Line, (OpenCitationsUniqueDOI.run s t).Sorted (· < ·) ∧
      (∀ x : Line, x ∈ OpenCitationsUniqueDOI.run s t ↔ x ∈ s ∨ x ∈ t)) ∧
    OpenCitationsSourceDOI.run ["1,A/1,B/1".data, "2,B/1,C/1".data] =
      ["a/1".data, "b/1".data] ∧
    OpenCitationsTargetDOI.run ["1,A/1,B/1".data, "2,B/1,C/1".data] =
      ["b/1".data, "c/1".data] ∧
    OpenCitationsUniqueDOI.run
        (OpenCitationsSourceDOI.run ["1,A/1,B/1".data, "2,B/1,C/1".data])
        (OpenCitationsTargetDOI.run ["1,A/1,B/1".data, "2,B/1,C/1".data]) =
      ["a/1".data, "b/1".data, "c/1".data] := by
  refine ⟨fun rows => ⟨sorted_le_sortLines _, perm_sortLines _⟩,
    fun rows => ⟨sorted_le_sortLines _, perm_sortLines _⟩,
    fun s t => ⟨sorted_lt_sortU _, fun x => ?_⟩,
    by decide, by decide, by decide⟩
  rw [OpenCitationsUniqueDOI.run, mem_sortU]
  simp [List.mem_append, mem_uniqAdj]

/-- C4: for every sorted target-DOI list, `OpenCitationsCitedCount.run`
(`uniq -c` | numeric reverse sort | whitespace-to-tab rewrite) produces
one `(count, DOI)` line per distinct DOI, the count being the DOI's
multiplicity in the input, lines ordered by descending count; on
`{b/1, b/1, c/1}` the result is `[(2, b/1), (1, c/1)]`. -/
theorem claim_C4_cited_count (l : List Line) (h : l.Sorted (· ≤ ·)) :
    (∀ p ∈ OpenCitationsCitedCount.run l, p.1 = l.count p.2) ∧
    ((OpenCitationsCitedCount.run l).map Prod.snd).Nodup ∧
    (∀ x : Line, x ∈ (OpenCitationsCitedCount.run l).map Prod.snd ↔ x ∈ l) ∧
    (OpenCitationsCitedCount.run l).Pairwise (fun a b => b.1 ≤ a.1) ∧
    OpenCitationsCitedCount.run ["b/1".data, "b/1".data, "c/1".data] =
      [(2, "b/1".data), (1, "c/1".data)] := by
  have hperm : (OpenCitationsCitedCount.run l).Perm (uniqCount l) :=
    perm_sortCountDesc (uniqCount l)
  have hmap : ((OpenCitationsCitedCount.run l).map Prod.snd).Perm (uniqAdj l) :=
    map_snd_uniqCount l ▸ hperm.map Prod.snd
  refine ⟨?_, ?_, ?_, pairwise_count_desc _, by decide⟩
  · intro p hp
    exact count_uniqCount l h p (hperm.mem_iff.mp hp)
  · exact hmap.symm.nodup (sorted_lt_uniqAdj l h).nodup
  · intro x
    rw [hmap.mem_iff, mem_uniqAdj]

theorem claim_C4_witness :
    OpenCitationsCitedCount.run ["b/1".data, "b/1".data, "c/1".data] =
      [(2, "b/1".data), (1, "c/1".data)] :=
  (claim_C4_cited_count ["b/1".data, "b/1".data, "c/1".data] (by decide)).2.2.2.2

/-- C5: for every task in this module, if the external step (`shellout`)
fails with a non-zero exit status, `run` raises before reaching the
move/publish call, so the task's Output Target path is never created. -/
theorem claim_C5_no_partial_publish (t : TaskInst) (e : Nat) (s : String)
    (o : RunOutcome) (ho : runProc t e s = some o) (he : e ≠ 0) :
    o.raised = some e ∧ o.outputCreated = false := by
  have key : runShellThenPublish e s = ⟨some e, false⟩ := by
    rw [runShellThenPublish, shellout, if_neg he]
  cases t <;> simp only [runProc] at ho <;>
    first
      | exact Option.noConfusion ho
      | (cases ho; rw [key]; exact ⟨rfl, rfl⟩)

theorem claim_C5_witness :
    (⟨some 1, false⟩ : RunOutcome).raised = some 1 ∧
      (⟨some 1, false⟩ : RunOutcome).outputCreated = false :=
  claim_C5_no_partial_publish .openCitationsSourceDOI 1 "scratch"
    ⟨some 1, false⟩ (by decide) (by decide)

/-- C6: the dependency graph declared by the `requires()` methods:
`OpenCitationsSourceDOI` and `OpenCitationsTargetDOI` each depend only on
`OpenCitationsSingleFile`; `OpenCitationsCitedCount` only on
`OpenCitationsTargetDOI`; `OpenCitationsUniqueDOI` on exactly the named
pair `{s, t}`; `IndexMappedDOI` only on `IdMappingTable` for its date;
`StatsCommonDOI` on exactly the named pair `{index, oci}`. -/
theorem claim_C6_dependency_graph :
    requires .openCitationsSourceDOI = some (.single .openCitationsSingleFile) ∧
    requires .openCitationsTargetDOI = some (.single .openCitationsSingleFile) ∧
    requires .openCitationsCitedCount = some (.single .openCitationsTargetDOI) ∧
    requires .openCitationsUniqueDOI =
      some (.named [("s", .openCitationsSourceDOI), ("t", .openCitationsTargetDOI)]) ∧
    (∀ d : Date, requires (.indexMappedDOI d) = some (.single (.idMappingTable d))) ∧
    (∀ d : Date, requires (.statsCommonDOI d) =
      some (.named [("index", .indexMappedDOI d), ("oci", .openCitationsUniqueDOI)])) :=
  ⟨rfl, rfl, rfl, rfl, fun _ => rfl, fun _ => rfl⟩

/-- C7: for every task in this module, `output()` is a deterministic pure
function of the task's own configuration (task class plus date parameter
where present): semantically equal configurations yield the same path,
different configurations yield different paths, and the path is computed
without running the task (`output` is a total function on
configurations). -/
theorem claim_C7_output_deterministic_injective (t1 t2 : TaskInst)
    (h1 : (output t1).isSome) (h2 : (output t2).isSome) :
    (t1 = t2 → output t1 = output t2) ∧ (t1 ≠ t2 → output t1 ≠ output t2) := by
  refine ⟨fun h => h ▸ rfl, fun hne => ?_⟩
  cases t1 <;> cases t2 <;> simp_all [output]

theorem claim_C7_witness :
    output .openCitationsSourceDOI ≠ output .openCitationsTargetDOI :=
  (claim_C7_output_deterministic_injective .openCitationsSourceDOI
    .openCitationsTargetDOI (by decide) (by decide)).2 (by decide)

/-- C8: the file-removal statement `os.remove(output)` at the end of
`OpenCitationsInboundStats.run` references the name `os`, which is bound
neither in the method's local scope nor at module level (the module never
imports `os`), so reaching it raises a `NameError`; moreover at that point
the local `output` has been rebound from the scratch path to the target
file handle. -/
theorem claim_C8_os_name_error (scratch : String) :
    OpenCitationsInboundStats.finalStmt scratch = .error (.nameError "os") ∧
    "os" ∉ moduleScope ∧
    lookupLocal (OpenCitationsInboundStats.localsAtFinalStmt scratch) "output" =
      some .fileHandle :=
  ⟨rfl, by decide, rfl⟩

/-- C9 (the violation): every artifact filename has the form
`<fingerprint>.<ext>`, but for `OpenCitationsUniqueDOI` the extension
`json.zst` declared by `output()` encodes a zstd-compressed JSON document
while its `run` procedure writes a zstd-compressed line list (the `sort
-u` output), the same payload its sibling tasks label `tsv.zst`. -/
theorem claim_C9_unique_doi_ext_mismatch :
    output .openCitationsUniqueDOI =
      some ⟨"OpenCitationsUniqueDOI", .urlHash, "json.zst"⟩ ∧
    extEncodes "json.zst" = some (.json, true) ∧
    runWrites .openCitationsUniqueDOI = some (.tsvLines, true) ∧
    extEncodes "json.zst" ≠ runWrites .openCitationsUniqueDOI ∧
    extEncodes "tsv.zst" = some (.tsvLines, true) ∧
    extEncodes "json" = some (.json, false) ∧
    runWrites .openCitationsSourceDOI = some (.tsvLines, true) ∧
    runWrites .openCitationsInboundStats = some (.json, false) := by
  refine ⟨rfl, by decide, rfl, by decide, by decide, by decide, rfl, rfl⟩

/-- C10: the source-DOI and target-DOI lists retain duplicates: each list
has exactly one line per citation edge (column lowercased, sorted, no
deduplication), so a DOI appearing in `n` edges appears `n` times, and
this multiplicity is what the cited-count step counts. -/
theorem claim_C10_lists_retain_duplicates (rows : List Line) :
    (OpenCitationsSourceDOI.run rows).length = rows.length ∧
    (OpenCitationsTargetDOI.run rows).length = rows.length ∧
    (∀ x : Line, (OpenCitationsSourceDOI.run rows).count x =
      (rows.map (fun r => lowerLine (cutField ',' 2 r))).count x) ∧
    (∀ x : Line, (OpenCitationsTargetDOI.run rows).count x =
      (rows.map (fun r => lowerLine (cutField ',' 3 r))).count x) ∧
    (∀ p ∈ OpenCitationsCitedCount.run (OpenCitationsTargetDOI.run rows),
      p.1 = (OpenCitationsTargetDOI.run rows).count p.2) := by
  refine ⟨?_, ?_, fun x => ?_, fun x => ?_, fun p hp => ?_⟩
  · exact (perm_sortLines _).length_eq.trans (List.length_map _ _)
  · exact (perm_sortLines _).length_eq.trans (List.length_map _ _)
  · exact count_eq_of_perm (perm_sortLines _) x
  · exact count_eq_of_perm (perm_sortLines _) x
  · exact count_uniqCount _ (sorted_le_sortLines _) p
      ((perm_sortCountDesc _).mem_iff.mp hp)

end LabeStats
